import Mathlib

/-!
Shallow embedding of the hyperkaehler trading bot's core (Go sources under
internal/risk, internal/strategy, internal/backtest and the execution package),
together with proofs settling the frozen claims about its specification.

Modelling conventions:
* Go `float64` arithmetic is embedded as exact rational arithmetic (`ℚ`).
* Go maps with zero-valued missing entries (`map[string]float64`,
  `map[string]int`) are embedded as total functions with default 0.
* `time.Time` values are embedded as rational milliseconds since the epoch;
  `time.Duration` comparisons translate to differences of those numbers.
* Display-only fields (`Reason` strings built with `fmt.Sprintf`, URLs,
  creator ids, pool balances, logging) are omitted: no claim mentions them
  and they do not feed back into any computation.
-/

namespace Hyper

/-- `config.RiskConfig` (internal/config/config.go). -/
structure RiskConfig where
  kellyFraction : ℚ
  maxPositionPct : ℚ
  maxMarketExposurePct : ℚ
  maxTotalExposure : ℚ
  maxDrawdownPct : ℚ
  minBetAmount : ℚ
  minEdge : ℚ
deriving DecidableEq

/-- `risk.Portfolio` (risk package): balance, invested value, total value. -/
structure Portfolio where
  balance : ℚ
  investmentValue : ℚ
  totalValue : ℚ
deriving DecidableEq

/-- `strategy.Signal` (internal/strategy/strategy.go), minus the display-only
`Reason` string. -/
structure Signal where
  marketID : String
  answerID : String
  outcome : String
  confidence : ℚ
  marketProb : ℚ
  edge : ℚ
  strategy : String
  isLimitOrder : Bool
  limitProb : ℚ
deriving DecidableEq

/-- `risk.SizedSignal` (internal/risk/manager.go). -/
structure SizedSignal where
  signal : Signal
  amount : ℚ
deriving DecidableEq

/-- `risk.Manager` (internal/risk/manager.go). `marketExposure` embeds the Go
map `map[string]float64` as a total function with default 0. -/
structure Manager where
  cfg : RiskConfig
  portfolio : Portfolio
  totalExposure : ℚ
  marketExposure : String → ℚ
  peakBalance : ℚ

/-- `Manager.CanTrade` (manager.go lines 35-69). Returns the boolean together
with the manager after its peak-balance side effect. -/
def canTrade (m : Manager) : Bool × Manager :=
  if m.portfolio.totalValue ≤ 0 then (false, m)
  else
    let m1 := if m.peakBalance < m.portfolio.totalValue
              then { m with peakBalance := m.portfolio.totalValue } else m
    if 0 < m1.peakBalance ∧
       m1.cfg.maxDrawdownPct ≤
         (m1.peakBalance - m1.portfolio.totalValue) / m1.peakBalance
    then (false, m1)
    else if m1.cfg.maxTotalExposure ≤ m1.totalExposure / m1.portfolio.totalValue
    then (false, m1)
    else (true, m1)

/-- The implied price of the bet side, as in `Manager.sizePosition`:
for a YES bet the market probability, for any other outcome `1 - marketProb`. -/
def betPrice (sig : Signal) : ℚ :=
  if sig.outcome = "YES" then sig.marketProb else 1 - sig.marketProb

/-- Net odds `b` received on the bet: `1/price - 1` (manager.go lines 130-143). -/
def netOdds (sig : Signal) : ℚ :=
  1 / betPrice sig - 1

/-- The Kelly fraction `f* = (b·p - (1-p))/b` with `p` the signal confidence
(manager.go line 149). -/
def kellyFrac (sig : Signal) : ℚ :=
  (netOdds sig * sig.confidence - (1 - sig.confidence)) / netOdds sig

/-- The candidate amount after fractional Kelly and the three successive caps
(max position, remaining total-exposure budget, available balance), floored to
an integer (manager.go lines 154-177), for net odds `b`. -/
def flooredAmount (m : Manager) (p b : ℚ) : ℚ :=
  let kellyFraction := (b * p - (1 - p)) / b
  let fraction := kellyFraction * m.cfg.kellyFraction
  let amount0 := fraction * m.portfolio.balance
  let amount1 := if m.cfg.maxPositionPct * m.portfolio.totalValue < amount0
                 then m.cfg.maxPositionPct * m.portfolio.totalValue else amount0
  let remainingExposure :=
    m.cfg.maxTotalExposure * m.portfolio.totalValue - m.totalExposure
  let amount2 := if remainingExposure < amount1 then remainingExposure else amount1
  let amount3 := if m.portfolio.balance < amount2 then m.portfolio.balance else amount2
  ((⌊amount3⌋ : ℤ) : ℚ)

/-- Tail of `Manager.sizePosition` once the net odds `b` have been derived
(manager.go lines 145-183). -/
def sizePositionOdds (m : Manager) (p b : ℚ) : ℚ :=
  if b ≤ 0 then 0
  else if (b * p - (1 - p)) / b ≤ 0 then 0
  else if flooredAmount m p b < m.cfg.minBetAmount then 0
  else flooredAmount m p b

/-- `Manager.sizePosition` (manager.go lines 120-184). -/
def sizePosition (m : Manager) (sig : Signal) : ℚ :=
  if sig.edge < m.cfg.minEdge then 0
  else if sig.outcome = "YES" then
    if sig.marketProb ≤ 0 ∨ 1 ≤ sig.marketProb then 0
    else sizePositionOdds m sig.confidence (1 / sig.marketProb - 1)
  else
    if 1 - sig.marketProb ≤ 0 ∨ 1 ≤ 1 - sig.marketProb then 0
    else sizePositionOdds m sig.confidence (1 / (1 - sig.marketProb) - 1)

/-- One iteration of the `SizeSignals` loop body (manager.go lines 81-115):
the final amount for the signal, or `none` when it is dropped. `cyc` is the
per-cycle market-exposure accumulator. -/
def marketCapStep (m : Manager) (cyc : String → ℚ) (sig : Signal) : Option ℚ :=
  let amount := sizePosition m sig
  if 0 < m.cfg.maxMarketExposurePct then
    let maxMarketExposure := m.cfg.maxMarketExposurePct * m.portfolio.totalValue
    let existingExposure := m.marketExposure sig.marketID + cyc sig.marketID
    let remaining := maxMarketExposure - existingExposure
    if remaining ≤ 0 then none
    else
      let amount2 := if remaining < amount then ((⌊remaining⌋ : ℤ) : ℚ) else amount
      if m.cfg.minBetAmount ≤ amount2 then some amount2 else none
  else if m.cfg.minBetAmount ≤ amount then some amount else none

/-- The `SizeSignals` loop over the input signals, threading the per-cycle
market-exposure accumulator (manager.go lines 77-116). -/
def sizeLoop (m : Manager) (cyc : String → ℚ) : List Signal → List SizedSignal
  | [] => []
  | sig :: rest =>
    match marketCapStep m cyc sig with
    | none => sizeLoop m cyc rest
    | some a =>
      { signal := sig, amount := a } ::
        sizeLoop m (fun id => if id = sig.marketID then cyc id + a else cyc id) rest

/-- `Manager.SizeSignals` (manager.go lines 72-118): the hard `CanTrade` gate,
then the sizing loop. Returns the sized signals and the manager (whose only
possible mutation is the peak balance, inside `CanTrade`). -/
def sizeSignals (m : Manager) (signals : List Signal) : List SizedSignal × Manager :=
  match canTrade m with
  | (false, m1) => ([], m1)
  | (true, m1) => (sizeLoop m1 (fun _ => 0) signals, m1)

/-- `Manager.RecordTrade` (manager.go lines 186-190). -/
def recordTrade (m : Manager) (marketID : String) (amount : ℚ) : Manager :=
  { m with
    totalExposure := m.totalExposure + amount,
    marketExposure := fun id =>
      if id = marketID then m.marketExposure id + amount else m.marketExposure id }

/-- `Manager.Refresh` (manager.go lines 192-200). -/
def refresh (m : Manager) : Manager :=
  let m1 := if m.peakBalance < m.portfolio.totalValue
            then { m with peakBalance := m.portfolio.totalValue } else m
  { m1 with totalExposure := m1.portfolio.investmentValue }

/-- `Manager.SetExposure` (manager.go lines 202-205). -/
def setExposure (m : Manager) (e : ℚ) : Manager :=
  { m with totalExposure := e }

/-- `Manager.SetMarketExposure` (manager.go lines 207-210). -/
def setMarketExposure (m : Manager) (f : String → ℚ) : Manager :=
  { m with marketExposure := f }

/-- `strategy.AnswerData` (internal/strategy/strategy.go). -/
structure AnswerData where
  id : String
  text : String
  probability : ℚ
  resolution : String
deriving DecidableEq

/-- `strategy.MarketData` (internal/strategy/strategy.go), restricted to the
fields the strategies read (pool balances, URL, creator, mechanism and the
market-level resolution string are never consumed by a generator). Times are
rational milliseconds since the epoch. -/
structure MarketData where
  id : String
  question : String
  outcomeType : String
  probability : ℚ
  answers : List AnswerData
  volume : ℚ
  volume24Hours : ℚ
  totalLiquidity : ℚ
  closeTime : ℚ
  createdTime : ℚ
  isResolved : Bool
deriving DecidableEq

/-- Milliseconds in one day, used to translate `AddDate(0,0,d)` and
`d*24*time.Hour` comparisons. -/
def dayMs : ℚ := 86400000

/-- `config.ArbitrageConfig`. -/
structure ArbitrageConfig where
  enabled : Bool
  minLiquidity : ℚ
  minProbSumDeviation : ℚ
  maxMarketsPerCycle : ℤ
  maxCloseDays : ℤ
deriving DecidableEq

/-- The active-answer filter of `Arbitrage.evaluateMarket` (arbitrage.go lines
62-71): unresolved answers with probability strictly inside (0.001, 0.999). -/
def activeAnswers (answers : List AnswerData) : List AnswerData :=
  answers.filter fun a =>
    if a.resolution = "" ∧ (1 : ℚ)/1000 < a.probability ∧ a.probability < 999/1000
    then true else false

/-- Body of `Arbitrage.evaluateMarket` after the active answers have been
collected (arbitrage.go lines 72-153), parameterised by the market id. -/
def arbSignalsForActive (cfg : ArbitrageConfig) (marketID : String)
    (active : List AnswerData) : List Signal :=
  if active.length < 2 then []
  else
    let total := (active.map fun a => a.probability).sum
    let deviation := total - 1
    if -cfg.minProbSumDeviation < deviation ∧ deviation < cfg.minProbSumDeviation
    then []
    else if cfg.minProbSumDeviation < deviation then
      active.filterMap fun a =>
        let fairValue := a.probability / total
        let edge := a.probability - fairValue
        if edge < 3/100 then none
        else some
          { marketID := marketID, answerID := a.id, outcome := "NO",
            confidence := 1 - fairValue, marketProb := a.probability,
            edge := edge, strategy := "arbitrage",
            isLimitOrder := true, limitProb := (a.probability + fairValue) / 2 }
    else
      active.filterMap fun a =>
        let fairValue := a.probability / total
        let edge := fairValue - a.probability
        if edge < 3/100 then none
        else some
          { marketID := marketID, answerID := a.id, outcome := "YES",
            confidence := fairValue, marketProb := a.probability,
            edge := edge, strategy := "arbitrage",
            isLimitOrder := true, limitProb := (a.probability + fairValue) / 2 }

/-- `Arbitrage.evaluateMarket` (arbitrage.go lines 61-154). -/
def arbEvaluateMarket (cfg : ArbitrageConfig) (m : MarketData) : List Signal :=
  arbSignalsForActive cfg m.id (activeAnswers m.answers)

/-- The market loop of `Arbitrage.Evaluate` (arbitrage.go lines 30-55),
threading the `evaluated` counter; the per-cycle market cap is a hard break. -/
def arbEvalLoop (cfg : ArbitrageConfig) (now : ℚ) (evaluated : ℤ) :
    List MarketData → List Signal
  | [] => []
  | m :: rest =>
    if m.outcomeType ≠ "MULTIPLE_CHOICE" then arbEvalLoop cfg now evaluated rest
    else if m.isResolved then arbEvalLoop cfg now evaluated rest
    else if m.totalLiquidity < cfg.minLiquidity then arbEvalLoop cfg now evaluated rest
    else if m.answers.length < 2 then arbEvalLoop cfg now evaluated rest
    else if 0 < cfg.maxCloseDays ∧ now + cfg.maxCloseDays * dayMs < m.closeTime
    then arbEvalLoop cfg now evaluated rest
    else if cfg.maxMarketsPerCycle < evaluated + 1 then []
    else arbEvaluateMarket cfg m ++ arbEvalLoop cfg now (evaluated + 1) rest

/-- `Arbitrage.Evaluate` (arbitrage.go lines 24-59). Strategy errors are always
nil, so the result is the plain signal list. -/
def arbEvaluate (cfg : ArbitrageConfig) (now : ℚ) (markets : List MarketData) :
    List Signal :=
  arbEvalLoop cfg now 0 markets

/-- The sum of active-answer probabilities of a market, as
`Arbitrage.evaluateMarket` computes it (arbitrage.go lines 76-80). -/
def arbProbSum (m : MarketData) : ℚ :=
  ((activeAnswers m.answers).map fun a => a.probability).sum

/-- The arbitrage configuration used by the repository's own tests. -/
def arbWitnessCfg : ArbitrageConfig :=
  { enabled := true, minLiquidity := 50, minProbSumDeviation := 1/10,
    maxMarketsPerCycle := 20, maxCloseDays := 0 }

/-- A multi-outcome market whose active-answer probabilities sum to 1.30. -/
def arbWitnessMarket : MarketData :=
  { id := "test-over", question := "q", outcomeType := "MULTIPLE_CHOICE",
    probability := 0,
    answers := [{ id := "a1", text := "Option A", probability := 1/2, resolution := "" },
                { id := "a2", text := "Option B", probability := 45/100, resolution := "" },
                { id := "a3", text := "Option C", probability := 35/100, resolution := "" }],
    volume := 0, volume24Hours := 0, totalLiquidity := 200,
    closeTime := 30 * dayMs, createdTime := 0, isResolved := false }

/-- `config.TimeDecayConfig`. -/
structure TimeDecayConfig where
  enabled : Bool
  minTimeElapsedFraction : ℚ
  minEdge : ℚ
  minVolume : ℚ
deriving DecidableEq

/-- `TimeDecay.evaluateMarket` (timedecay strategy, lines 77-124). -/
def tdEvaluateMarket (cfg : TimeDecayConfig) (now : ℚ) (m : MarketData) :
    Option Signal :=
  let totalDuration := m.closeTime - m.createdTime
  if totalDuration ≤ 0 then none
  else
    let elapsed := now - m.createdTime
    let timeElapsedFraction := elapsed / totalDuration
    if timeElapsedFraction ≤ cfg.minTimeElapsedFraction then none
    else
      let tef := if 1 < timeElapsedFraction then 1 else timeElapsedFraction
      let estimatedProb := m.probability * (1 - tef * (1/2))
      let edge := m.probability - estimatedProb
      if edge ≤ cfg.minEdge then none
      else some
        { marketID := m.id, answerID := "", outcome := "NO",
          confidence := 1 - estimatedProb, marketProb := m.probability,
          edge := edge, strategy := "timedecay",
          isLimitOrder := true, limitProb := (m.probability + estimatedProb) / 2 }

/-- `TimeDecay.Evaluate` (timedecay strategy, lines 33-66). The fixed regexp
list over the question text is passed in as the Boolean predicate
`matchesTimePattern`; everything else is translated from the source. -/
def tdEvaluate (cfg : TimeDecayConfig) (matchesTimePattern : String → Bool)
    (now : ℚ) (markets : List MarketData) : List Signal :=
  markets.flatMap fun m =>
    if m.outcomeType ≠ "BINARY" then []
    else if m.isResolved then []
    else if (1/2 : ℚ) ≤ m.probability then []
    else if m.volume ≤ cfg.minVolume then []
    else if ¬ matchesTimePattern m.question then []
    else (tdEvaluateMarket cfg now m).toList

/-- `config.MispricingConfig` (the mean-reversion threshold belongs to the
unimplemented sub-strategy and is never read). -/
structure MispricingConfig where
  enabled : Bool
  extremeThresholdHigh : ℚ
  extremeThresholdLow : ℚ
  minMarketAgeDays : ℤ
  minVolume : ℚ
deriving DecidableEq

/-- `Mispricing.evaluateExtreme` (mispricing strategy, lines 53-111). -/
def mpEvaluateExtreme (cfg : MispricingConfig) (now : ℚ) (mkt : MarketData) :
    List Signal :=
  let prob := mkt.probability
  let isHigh := cfg.extremeThresholdHigh < prob
  let isLow := prob < cfg.extremeThresholdLow
  if ¬ isHigh ∧ ¬ isLow then []
  else if now - mkt.createdTime < cfg.minMarketAgeDays * dayMs then []
  else if mkt.volume < cfg.minVolume then []
  else if mkt.closeTime - now < 14 * dayMs then []
  else
    let confidence : ℚ := 97/100
    let outcome := if isHigh then "YES" else "NO"
    let edge := if isHigh then confidence - prob else prob - (1 - confidence)
    if edge ≤ 0 then []
    else
      [{ marketID := mkt.id, answerID := "", outcome := outcome,
         confidence := confidence, marketProb := prob, edge := edge,
         strategy := "mispricing", isLimitOrder := false, limitProb := 0 }]

/-- `Mispricing.Evaluate` (mispricing strategy, lines 25-48). -/
def mpEvaluate (cfg : MispricingConfig) (now : ℚ) (markets : List MarketData) :
    List Signal :=
  markets.flatMap fun mkt =>
    if mkt.outcomeType ≠ "BINARY" then []
    else if mkt.isResolved then []
    else mpEvaluateExtreme cfg now mkt

/-- `config.MarketMakingConfig` (the limit-order capital fraction is not read
by the strategy itself). -/
structure MarketMakingConfig where
  enabled : Bool
  baseSpread : ℚ
  minLiquidity : ℚ
  minVolume24h : ℚ
deriving DecidableEq

/-- `MarketMaking.isEligible` (marketmaking strategy, lines 153-173). -/
def mmIsEligible (cfg : MarketMakingConfig) (now : ℚ) (m : MarketData) : Bool :=
  if m.outcomeType ≠ "BINARY" then false
  else if m.isResolved then false
  else if m.totalLiquidity < cfg.minLiquidity then false
  else if m.volume24Hours < cfg.minVolume24h then false
  else if m.probability < 20/100 ∨ 80/100 < m.probability then false
  else if m.closeTime - now < 30 * dayMs then false
  else true

/-- `MarketMaking.calculateSpread` (marketmaking strategy, lines 175-184). -/
def mmCalculateSpread (cfg : MarketMakingConfig) (m : MarketData) : ℚ :=
  if 2000 < m.totalLiquidity then 2/100
  else if 1000 < m.totalLiquidity then 3/100
  else cfg.baseSpread

/-- `MarketMaking.generateSignals` (marketmaking strategy, lines 186-224). -/
def mmGenerateSignals (m : MarketData) (spread : ℚ) : List Signal :=
  let halfSpread := spread / 2
  [{ marketID := m.id, answerID := "", outcome := "YES",
     confidence := m.probability, marketProb := m.probability,
     edge := halfSpread, strategy := "marketmaking",
     isLimitOrder := true, limitProb := m.probability - halfSpread },
   { marketID := m.id, answerID := "", outcome := "NO",
     confidence := 1 - m.probability, marketProb := m.probability,
     edge := halfSpread, strategy := "marketmaking",
     isLimitOrder := true, limitProb := m.probability + halfSpread }]

/-- `MarketMaking.Evaluate` (marketmaking strategy, lines 136-151). -/
def mmEvaluate (cfg : MarketMakingConfig) (now : ℚ) (markets : List MarketData) :
    List Signal :=
  markets.flatMap fun m =>
    if mmIsEligible cfg now m then mmGenerateSignals m (mmCalculateSpread cfg m)
    else []

/-- A market-making configuration with thresholds met by the witness market. -/
def mmWitnessCfg : MarketMakingConfig :=
  { enabled := true, baseSpread := 4/100, minLiquidity := 100, minVolume24h := 5 }

/-- A binary market with liquidity 2500 and probability 0.50. -/
def mmWitnessMarket : MarketData :=
  { id := "mm-1", question := "q", outcomeType := "BINARY", probability := 1/2,
    answers := [], volume := 100, volume24Hours := 50, totalLiquidity := 2500,
    closeTime := 100 * dayMs, createdTime := 0, isResolved := false }

/-- A market-making configuration with base spread 0 (all thresholds 0). -/
def mmZeroCfg : MarketMakingConfig :=
  { enabled := true, baseSpread := 0, minLiquidity := 0, minVolume24h := 0 }

/-- An eligible binary market in the base-spread liquidity tier. -/
def mmZeroMarket : MarketData :=
  { id := "z", question := "q", outcomeType := "BINARY", probability := 1/2,
    answers := [], volume := 0, volume24Hours := 0, totalLiquidity := 500,
    closeTime := 100 * dayMs, createdTime := 0, isResolved := false }

/-- Substring test on character lists, used to embed Go's `strings.Contains`. -/
def charsContain (pat : List Char) : List Char → Bool
  | [] => decide (pat = [])
  | c :: t => decide ((c :: t).take pat.length = pat) || charsContain pat t

/-- Go `strings.Contains s pat`. -/
def strContains (s pat : String) : Bool :=
  charsContain pat.data s.data

/-- `execution.Executor` state: the `failedBets` map, keyed `marketID:answerID`
with consecutive-failure counts (Go map with default 0; deleting a key makes
it read as 0 again). -/
structure ExecState where
  failedBets : String → ℕ

/-- The `failedBets` key of a signal: `marketID + ":" + answerID`
(executeSingle). Note the outcome is not part of the key. -/
def betKey (sig : Signal) : String :=
  sig.marketID ++ ":" ++ sig.answerID

/-- The response the order-placement API would give if the bet were attempted. -/
inductive PlacementOutcome
  | success
  | failure (msg : String)
deriving DecidableEq

/-- Result of one `executeSingle` call: the new executor state, whether a
placement was actually attempted, and whether it succeeded. -/
structure ExecStepResult where
  state : ExecState
  attempted : Bool
  success : Bool

/-- `executeSingle`'s permanent-failure classification: the error message
contains "resolved", "status 403" or "status 404". -/
def isPermanentMsg (msg : String) : Bool :=
  strContains msg "resolved" || strContains msg "status 403" ||
    strContains msg "status 404"

/-- `Executor.executeSingle` (execution package): skip keys with 3 or more
consecutive failures; on success delete the key; on a permanent failure set the
counter to 100; on a transient failure increment it. -/
def executeSingle (s : ExecState) (sig : Signal) (outcome : PlacementOutcome) :
    ExecStepResult :=
  let key := betKey sig
  if 3 ≤ s.failedBets key then
    { state := s, attempted := false, success := false }
  else
    match outcome with
    | .success =>
      { state := ⟨fun k => if k = key then 0 else s.failedBets k⟩,
        attempted := true, success := true }
    | .failure msg =>
      if isPermanentMsg msg then
        { state := ⟨fun k => if k = key then 100 else s.failedBets k⟩,
          attempted := true, success := false }
      else
        { state := ⟨fun k => if k = key then s.failedBets k + 1 else s.failedBets k⟩,
          attempted := true, success := false }

/-- A run of the executor over a sequence of (signal, API response) events,
pairing each event with its step result (as `Executor.Execute` does). -/
def runExec (s : ExecState) :
    List (Signal × PlacementOutcome) → List ((Signal × PlacementOutcome) × ExecStepResult)
  | [] => []
  | ev :: rest =>
    let r := executeSingle s ev.1 ev.2
    (ev, r) :: runExec r.state rest

/-- A fresh executor state: no failures recorded. -/
def execFreshState : ExecState := ⟨fun _ => 0⟩

/-- A concrete signal for exercising the executor's failure policy. -/
def execSig : Signal :=
  { marketID := "m1", answerID := "a1", outcome := "YES",
    confidence := 1/2, marketProb := 1/2, edge := 1/10,
    strategy := "t", isLimitOrder := false, limitProb := 0 }

/-- A strategy as the orchestration layers see it: an enabled flag and the
`Evaluate` function (which may fail; both loops skip a failing strategy). -/
structure Strat where
  enabled : Bool
  evaluate : List MarketData → Option (List Signal)

/-- The generator loop shared verbatim by `Runner.Run` (runner.go lines 76-87)
and `Scheduler.runTradingCycle` (lines 382-396): enabled strategies in stable
order, concatenating their signals, skipping errors. -/
def generateAll (strats : List Strat) (mkts : List MarketData) : List Signal :=
  strats.foldl
    (fun acc s =>
      if s.enabled then
        match s.evaluate mkts with
        | some sigs => acc ++ sigs
        | none => acc
      else acc)
    []

/-- One per-timestamp step of the Replay Driver (`Runner.Run`, runner.go lines
65-99): `Refresh`, generate, `SizeSignals`, then `RecordTrade` for every sized
signal. -/
def replayCycle (strats : List Strat) (m : Manager) (mkts : List MarketData) :
    List SizedSignal × Manager :=
  let m1 := refresh m
  let r := sizeSignals m1 (generateAll strats mkts)
  (r.1, r.1.foldl (fun mm z => recordTrade mm z.signal.marketID z.amount) r.2)

/-- The Replay Driver over a list of snapshot sets, concatenating the sized
signals of every timestamp (runner.go lines 65-99). -/
def replayRun (strats : List Strat) (m : Manager) :
    List (List MarketData) → List SizedSignal × Manager
  | [] => ([], m)
  | mkts :: rest =>
    let r := replayCycle strats m mkts
    let rr := replayRun strats r.2 rest
    (r.1 ++ rr.1, rr.2)

/-- The external inputs one live trading cycle consumes besides the snapshot
set: the refreshed portfolio, the per-market unresolved-bet sums loaded from
the database, and which placements succeed (by batch position). -/
structure LiveEnv where
  portfolio : Portfolio
  dbExposure : String → ℚ
  succ : ℕ → Bool

/-- `RecordTrade` for each successfully executed sized signal, in batch order
(runTradingCycle lines 425-432). -/
def recordSuccessesAux (succ : ℕ → Bool) (i : ℕ) (m : Manager) :
    List SizedSignal → Manager
  | [] => m
  | z :: rest =>
    recordSuccessesAux succ (i + 1)
      (if succ i then recordTrade m z.signal.marketID z.amount else m) rest

/-- `RecordTrade` over the execution results of a batch. -/
def recordSuccesses (succ : ℕ → Bool) (m : Manager) (sized : List SizedSignal) :
    Manager :=
  recordSuccessesAux succ 0 m sized

/-- One live trading cycle (`Scheduler.runTradingCycle`, runner.go lines
352-438): refresh the portfolio from the API, `Refresh` the risk manager, load
per-market exposure from the ledger, generate, `SizeSignals` (skipped when no
signals), execute and `RecordTrade` the successes. Scanning, caching, catalog
upserts and bankroll snapshots touch no state the sizing reads. -/
def liveCycle (strats : List Strat) (env : LiveEnv) (m : Manager)
    (mkts : List MarketData) : List SizedSignal × Manager :=
  let m0 := { m with portfolio := env.portfolio }
  let m1 := refresh m0
  let m2 := setMarketExposure m1 env.dbExposure
  let allSignals := generateAll strats mkts
  if allSignals = [] then ([], m2)
  else
    let r := sizeSignals m2 allSignals
    (r.1, recordSuccesses env.succ r.2 r.1)

/-- The live Orchestration Loop's trading cycles over a list of snapshot sets,
with one `LiveEnv` of external inputs per cycle. -/
def liveRun (strats : List Strat) (m : Manager) :
    List LiveEnv → List (List MarketData) → List SizedSignal × Manager
  | [], _ => ([], m)
  | _, [] => ([], m)
  | env :: envRest, mkts :: mktsRest =>
    let r := liveCycle strats env m mkts
    let rr := liveRun strats r.2 envRest mktsRest
    (r.1 ++ rr.1, rr.2)

/-- The live cycles' external inputs agree with what the Replay Driver
simulates: each cycle's refreshed portfolio equals the replay portfolio, the
ledger sums loaded from the database equal the exposure accumulated from the
recorded trades, and every placement succeeds. -/
def ConsistentEnvs (strats : List Strat) (m : Manager) :
    List LiveEnv → List (List MarketData) → Prop
  | [], [] => True
  | env :: envRest, mkts :: mktsRest =>
    env.portfolio = m.portfolio ∧
    env.dbExposure = m.marketExposure ∧
    (∀ i, env.succ i = true) ∧
    ConsistentEnvs strats (replayCycle strats m mkts).2 envRest mktsRest
  | _, _ => False

def capExManager : Manager :=
  { cfg := { kellyFraction := 1/4, maxPositionPct := 1/2,
             maxMarketExposurePct := 1/10, maxTotalExposure := 1/2,
             maxDrawdownPct := 1/5, minBetAmount := 1, minEdge := 1/20 },
    portfolio := { balance := 100, investmentValue := 0, totalValue := 100 },
    totalExposure := 0,
    marketExposure := fun id => if id = "mkt" then 5 else 0,
    peakBalance := 0 }

def capExSignal : Signal :=
  { marketID := "mkt", answerID := "", outcome := "YES",
    confidence := 9/10, marketProb := 1/2, edge := 2/5,
    strategy := "t", isLimitOrder := false, limitProb := 0 }

def capDropManager : Manager :=
  { cfg := { kellyFraction := 1/4, maxPositionPct := 1/2,
             maxMarketExposurePct := 1/10, maxTotalExposure := 1/2,
             maxDrawdownPct := 1/5, minBetAmount := 1, minEdge := 1/20 },
    portfolio := { balance := 100, investmentValue := 0, totalValue := 100 },
    totalExposure := 0,
    marketExposure := fun id => if id = "mkt" then 19/2 else 0,
    peakBalance := 0 }

/-- A strategy that always proposes one fixed high-edge signal. -/
def c1Strat : Strat :=
  { enabled := true,
    evaluate := fun _ => some
      [{ marketID := "w", answerID := "", outcome := "YES",
         confidence := 7/10, marketProb := 1/2, edge := 2/10,
         strategy := "test", isLimitOrder := false, limitProb := 0 }] }

/-- A risk manager with the default configuration and a 2300-mana bankroll. -/
def c1Manager : Manager :=
  { cfg := { kellyFraction := 1/4, maxPositionPct := 1/20,
             maxMarketExposurePct := 1/10, maxTotalExposure := 1/2,
             maxDrawdownPct := 1/5, minBetAmount := 1, minEdge := 1/20 },
    portfolio := { balance := 2300, investmentValue := 0, totalValue := 2300 },
    totalExposure := 0, marketExposure := fun _ => 0, peakBalance := 0 }

/-- Live-cycle external inputs consistent with `c1Manager`'s replay state. -/
def c1Env : LiveEnv :=
  { portfolio := { balance := 2300, investmentValue := 0, totalValue := 2300 },
    dbExposure := fun _ => 0, succ := fun _ => true }

/-- A risk manager with the default configuration and a 2300-mana bankroll,
used to exercise the sizing bounds. -/
def c2wManager : Manager :=
  { cfg := { kellyFraction := 1/4, maxPositionPct := 1/20,
             maxMarketExposurePct := 1/10, maxTotalExposure := 1/2,
             maxDrawdownPct := 1/5, minBetAmount := 1, minEdge := 1/20 },
    portfolio := { balance := 2300, investmentValue := 0, totalValue := 2300 },
    totalExposure := 0, marketExposure := fun _ => 0, peakBalance := 0 }

/-- A high-edge YES signal at market probability 0.50. -/
def c2wSignal : Signal :=
  { marketID := "test", answerID := "", outcome := "YES",
    confidence := 7/10, marketProb := 1/2, edge := 2/10,
    strategy := "test", isLimitOrder := false, limitProb := 0 }

/-- The YES signal `mmWitnessMarket` produces under `mmWitnessCfg`. -/
def c9wSignal : Signal :=
  { marketID := "mm-1", answerID := "", outcome := "YES",
    confidence := 1/2, marketProb := 1/2, edge := 1/100,
    strategy := "marketmaking", isLimitOrder := true, limitProb := 49/100 }

/-! ### Helper lemmas about the risk manager -/

theorem canTrade_cfg (m : Manager) : (canTrade m).2.cfg = m.cfg := by
  unfold canTrade
  dsimp only
  split_ifs <;> rfl

theorem canTrade_portfolio (m : Manager) : (canTrade m).2.portfolio = m.portfolio := by
  unfold canTrade
  dsimp only
  split_ifs <;> rfl

theorem canTrade_totalExposure (m : Manager) :
    (canTrade m).2.totalExposure = m.totalExposure := by
  unfold canTrade
  dsimp only
  split_ifs <;> rfl

theorem canTrade_marketExposure (m : Manager) :
    (canTrade m).2.marketExposure = m.marketExposure := by
  unfold canTrade
  dsimp only
  split_ifs <;> rfl

theorem canTrade_peak (m : Manager) :
    (canTrade m).2.peakBalance =
      if m.portfolio.totalValue ≤ 0 then m.peakBalance
      else max m.peakBalance m.portfolio.totalValue := by
  unfold canTrade
  dsimp only
  split_ifs <;>
    simp_all [max_eq_right, max_eq_left, le_of_lt, le_of_not_lt]

/-- If the peak is already at least the total value, `CanTrade` has no side
effect at all. -/
theorem canTrade_state_of_peak (m : Manager)
    (h : m.portfolio.totalValue ≤ m.peakBalance) : (canTrade m).2 = m := by
  unfold canTrade
  dsimp only
  rw [if_neg (not_lt.mpr h)]
  split_ifs <;> rfl

/-- Claim C4 (amended: for strictly positive total portfolio value; the code
returns false outright whenever total value ≤ 0, before any drawdown test).
Holding exposure strictly below the max-total-exposure fraction, `CanTrade`
returns false exactly when `(peak' - total)/peak' ≥ maxDrawdownPct`, where
`peak'` is the peak first updated to the total value if the total exceeds it;
and the stored peak after the call is exactly `peak'`. -/
theorem canTrade_drawdown_iff (m : Manager)
    (htv : 0 < m.portfolio.totalValue)
    (hexp : m.totalExposure / m.portfolio.totalValue < m.cfg.maxTotalExposure) :
    ((canTrade m).1 = false ↔
      m.cfg.maxDrawdownPct ≤
        (max m.peakBalance m.portfolio.totalValue - m.portfolio.totalValue) /
          max m.peakBalance m.portfolio.totalValue) ∧
    (canTrade m).2.peakBalance = max m.peakBalance m.portfolio.totalValue := by
  have hne := not_le.mpr htv
  constructor
  · unfold canTrade
    dsimp only
    rw [if_neg hne]
    rcases lt_or_le m.peakBalance m.portfolio.totalValue with hpk | hpk
    · rw [if_pos hpk]
      rw [max_eq_right (le_of_lt hpk)]
      split_ifs with h1 h2
      · simp only [true_iff]
        exact h1.2
      · exact absurd h2 (not_le.mpr hexp)
      · simp only [Bool.true_eq_false, false_iff]
        intro hdd
        exact h1 ⟨htv, hdd⟩
    · rw [if_neg (not_lt.mpr hpk)]
      rw [max_eq_left hpk]
      split_ifs with h1 h2
      · simp only [true_iff]
        exact h1.2
      · exact absurd h2 (not_le.mpr hexp)
      · simp only [Bool.true_eq_false, false_iff]
        intro hdd
        have hpk0 : 0 < m.peakBalance := lt_of_lt_of_le htv hpk
        exact h1 ⟨hpk0, hdd⟩
  · rw [canTrade_peak, if_neg hne]

/-- Witness for `canTrade_drawdown_iff` at a concrete manager in a 25%
drawdown against a max-drawdown limit of 20%: the call returns false. -/
theorem canTrade_drawdown_iff_witness :
    (canTrade
      { cfg := { kellyFraction := 1/4, maxPositionPct := 1/20,
                 maxMarketExposurePct := 1/10, maxTotalExposure := 1/2,
                 maxDrawdownPct := 1/5, minBetAmount := 1, minEdge := 1/20 },
        portfolio := { balance := 1500, investmentValue := 0, totalValue := 1500 },
        totalExposure := 0, marketExposure := fun _ => 0,
        peakBalance := 2000 }).1 = false := by
  have h := canTrade_drawdown_iff
    { cfg := { kellyFraction := 1/4, maxPositionPct := 1/20,
               maxMarketExposurePct := 1/10, maxTotalExposure := 1/2,
               maxDrawdownPct := 1/5, minBetAmount := 1, minEdge := 1/20 },
      portfolio := { balance := 1500, investmentValue := 0, totalValue := 1500 },
      totalExposure := 0, marketExposure := fun _ => 0,
      peakBalance := 2000 }
    (by norm_num) (by norm_num)
  exact h.1.mpr (by norm_num)

/-- Counterexample to claim C4 as frozen: at total portfolio value 0 (a fresh,
empty portfolio with peak 0) `CanTrade` returns false although the claimed
drawdown condition `(peak - total)/peak ≥ maxDrawdownPct` does not hold (the
quotient is 0/0 = 0 in the rational embedding) while exposure is held below
the max-total-exposure fraction. -/
theorem canTrade_drawdown_iff_counterexample :
    (canTrade
      { cfg := { kellyFraction := 1/4, maxPositionPct := 1/20,
                 maxMarketExposurePct := 1/10, maxTotalExposure := 1/2,
                 maxDrawdownPct := 1/5, minBetAmount := 1, minEdge := 1/20 },
        portfolio := { balance := 0, investmentValue := 0, totalValue := 0 },
        totalExposure := 0, marketExposure := fun _ => 0,
        peakBalance := 0 } : Bool × Manager).1 = false ∧
    ¬ ((1/5 : ℚ) ≤ (max (0:ℚ) 0 - 0) / max (0:ℚ) 0) ∧
    ((0:ℚ) / 0 < 1/2) := by
  refine ⟨?_, by norm_num, by norm_num⟩
  unfold canTrade
  norm_num

theorem sizePositionOdds_zero (m : Manager) (p b : ℚ)
    (h : b ≤ 0 ∨ (b * p - (1 - p)) / b ≤ 0 ∨
         flooredAmount m p b < m.cfg.minBetAmount) :
    sizePositionOdds m p b = 0 := by
  unfold sizePositionOdds
  split_ifs with h1 h2 h3
  · rfl
  · rfl
  · rfl
  · rcases h with h | h | h
    · exact absurd h h1
    · exact absurd h h2
    · exact absurd h h3

/-- Claim C5: `sizePosition` is a total function into amounts — it never
signals an error — and it returns 0 on every degenerate case: edge below the
configured minimum edge, bet-side price outside (0,1), non-positive net odds,
non-positive Kelly fraction, or a floored capped amount below the minimum bet. -/
theorem sizePosition_degenerate (m : Manager) (sig : Signal)
    (h : sig.edge < m.cfg.minEdge ∨
         betPrice sig ≤ 0 ∨ 1 ≤ betPrice sig ∨
         netOdds sig ≤ 0 ∨ kellyFrac sig ≤ 0 ∨
         flooredAmount m sig.confidence (netOdds sig) < m.cfg.minBetAmount) :
    sizePosition m sig = 0 := by
  unfold sizePosition
  split_ifs with h1 h2 h3 h4
  · rfl
  · rfl
  · -- outcome = "YES", price checks passed
    have hbp : betPrice sig = sig.marketProb := if_pos h2
    rcases h with h | h | h | h | h | h
    · exact absurd h h1
    · exact absurd (Or.inl (hbp ▸ h)) h3
    · exact absurd (Or.inr (hbp ▸ h)) h3
    · exact sizePositionOdds_zero m sig.confidence _ (Or.inl (by rw [netOdds, hbp] at h; exact h))
    · refine sizePositionOdds_zero m sig.confidence _ (Or.inr (Or.inl ?_))
      rw [kellyFrac, netOdds, hbp] at h
      by_cases hb : (1 / sig.marketProb - 1) ≤ 0
      · rw [div_nonpos_iff] at h ⊢
        rcases h with ⟨ha, hb'⟩ | ⟨ha, hb'⟩
        · exact Or.inl ⟨ha, hb'⟩
        · exact Or.inr ⟨ha, hb'⟩
      · rw [div_nonpos_iff] at h ⊢
        rcases h with ⟨ha, hb'⟩ | ⟨ha, hb'⟩
        · exact Or.inl ⟨ha, hb'⟩
        · exact Or.inr ⟨ha, hb'⟩
    · refine sizePositionOdds_zero m sig.confidence _ (Or.inr (Or.inr ?_))
      rw [netOdds, hbp] at h
      exact h
  · rfl
  · -- outcome ≠ "YES", price checks passed
    have hbp : betPrice sig = 1 - sig.marketProb := if_neg h2
    rcases h with h | h | h | h | h | h
    · exact absurd h h1
    · exact absurd (Or.inl (hbp ▸ h)) h4
    · exact absurd (Or.inr (hbp ▸ h)) h4
    · exact sizePositionOdds_zero m sig.confidence _ (Or.inl (by rw [netOdds, hbp] at h; exact h))
    · refine sizePositionOdds_zero m sig.confidence _ (Or.inr (Or.inl ?_))
      rw [kellyFrac, netOdds, hbp] at h
      exact h
    · refine sizePositionOdds_zero m sig.confidence _ (Or.inr (Or.inr ?_))
      rw [netOdds, hbp] at h
      exact h

/-- Witness for `sizePosition_degenerate`: a signal whose edge (0.02) is below
the configured minimum edge (0.05) is sized to 0. -/
theorem sizePosition_degenerate_witness :
    sizePosition
      { cfg := { kellyFraction := 1/4, maxPositionPct := 1/20,
                 maxMarketExposurePct := 1/10, maxTotalExposure := 1/2,
                 maxDrawdownPct := 1/5, minBetAmount := 1, minEdge := 1/20 },
        portfolio := { balance := 2300, investmentValue := 0, totalValue := 2300 },
        totalExposure := 0, marketExposure := fun _ => 0, peakBalance := 0 }
      { marketID := "test", answerID := "", outcome := "YES",
        confidence := 52/100, marketProb := 1/2, edge := 2/100,
        strategy := "test", isLimitOrder := false, limitProb := 0 } = 0 :=
  sizePosition_degenerate _ _ (Or.inl (by norm_num))

/-- The capped, floored candidate amount never exceeds the max-position cap:
the cap is applied before the two only-decreasing caps and the floor. -/
theorem flooredAmount_le_maxPosition (m : Manager) (p b : ℚ) :
    flooredAmount m p b ≤ m.cfg.maxPositionPct * m.portfolio.totalValue := by
  unfold flooredAmount
  dsimp only
  split_ifs <;> exact le_trans (Int.floor_le _) (by linarith)

theorem sizePositionOdds_spec (m : Manager) (p b : ℚ) :
    sizePositionOdds m p b = 0 ∨
      (m.cfg.minBetAmount ≤ sizePositionOdds m p b ∧
       sizePositionOdds m p b ≤ m.cfg.maxPositionPct * m.portfolio.totalValue) := by
  unfold sizePositionOdds
  split_ifs with h1 h2 h3
  · exact Or.inl rfl
  · exact Or.inl rfl
  · exact Or.inl rfl
  · exact Or.inr ⟨not_lt.mp h3, flooredAmount_le_maxPosition m p b⟩

theorem sizePosition_spec (m : Manager) (sig : Signal) :
    sizePosition m sig = 0 ∨
      (m.cfg.minBetAmount ≤ sizePosition m sig ∧
       sizePosition m sig ≤ m.cfg.maxPositionPct * m.portfolio.totalValue) := by
  unfold sizePosition
  split_ifs
  · exact Or.inl rfl
  · exact Or.inl rfl
  · exact sizePositionOdds_spec m sig.confidence _
  · exact Or.inl rfl
  · exact sizePositionOdds_spec m sig.confidence _

/-- A kept loop iteration yields an amount at least the minimum bet and at most
the signal's `sizePosition` value. -/
theorem marketCapStep_some (m : Manager) (cyc : String → ℚ) (sig : Signal)
    (a : ℚ) (h : marketCapStep m cyc sig = some a) :
    m.cfg.minBetAmount ≤ a ∧ a ≤ sizePosition m sig := by
  unfold marketCapStep at h
  dsimp only at h
  split_ifs at h with h1 h2 h3 h4 h5 h6
  · -- capped at the floor of the remaining budget
    rw [Option.some_inj] at h
    subst h
    exact ⟨h4, le_of_lt (lt_of_le_of_lt (Int.floor_le _) h3)⟩
  · rw [Option.some_inj] at h
    subst h
    exact ⟨h5, le_refl _⟩
  · rw [Option.some_inj] at h
    subst h
    exact ⟨h6, le_refl _⟩

theorem sizeLoop_mem (m : Manager) :
    ∀ (sigs : List Signal) (cyc : String → ℚ) (z : SizedSignal),
      z ∈ sizeLoop m cyc sigs →
      m.cfg.minBetAmount ≤ z.amount ∧ z.amount ≤ sizePosition m z.signal := by
  intro sigs
  induction sigs with
  | nil => intro cyc z h; simp [sizeLoop] at h
  | cons sig rest ih =>
    intro cyc z h
    rw [sizeLoop] at h
    rcases hstep : marketCapStep m cyc sig with _ | a
    · rw [hstep] at h
      exact ih cyc z h
    · rw [hstep] at h
      rcases List.mem_cons.mp h with hz | hz
      · subst hz
        exact marketCapStep_some m cyc sig a hstep
      · exact ih _ z hz

/-- Claim C2 (amended: for a strictly positive configured minimum bet amount;
with `minBetAmount ≤ 0` the code can return a sized signal of amount 0, and
with a negative max-position fraction such a kept zero amount also breaks the
upper bound). Every returned `SizedSignal` has an amount at least the minimum
bet amount, at most the max-position fraction of the total portfolio value,
and in particular never 0. -/
theorem sizeSignals_amount_bounds (m : Manager) (signals : List Signal)
    (hmin : 0 < m.cfg.minBetAmount) :
    ∀ z ∈ (sizeSignals m signals).1,
      m.cfg.minBetAmount ≤ z.amount ∧
      z.amount ≤ m.cfg.maxPositionPct * m.portfolio.totalValue ∧
      z.amount ≠ 0 := by
  intro z hz
  rw [sizeSignals] at hz
  rcases hct : canTrade m with ⟨b, m1⟩
  rw [hct] at hz
  have hcfg : m1.cfg = m.cfg := by rw [← canTrade_cfg m, hct]
  have hpf : m1.portfolio = m.portfolio := by rw [← canTrade_portfolio m, hct]
  cases b
  · simp at hz
  · dsimp only at hz
    have hb := sizeLoop_mem m1 signals (fun _ => 0) z hz
    have hsp := sizePosition_spec m1 z.signal
    rw [hcfg] at hb
    rcases hsp with hsp | hsp
    · rw [hsp] at hb
      exact absurd (lt_of_lt_of_le hmin hb.1) (not_lt.mpr hb.2)
    · refine ⟨hb.1, ?_, ?_⟩
      · rw [hcfg, hpf] at hsp
        exact le_trans hb.2 hsp.2
      · exact ne_of_gt (lt_of_lt_of_le hmin hb.1)

/-- Witness for `sizeSignals_amount_bounds`: with the default risk
configuration and a 2300-mana portfolio, a high-edge YES signal is sized to
exactly 115 (the 5% max-position cap), which is at least the minimum bet, at
most the cap, and nonzero. -/
theorem sizeSignals_amount_bounds_witness :
    (sizeSignals c2wManager [c2wSignal]).1 =
      [{ signal := c2wSignal, amount := 115 }] ∧
    (1:ℚ) ≤ 115 ∧ (115:ℚ) ≤ 1/20 * 2300 ∧ (115:ℚ) ≠ 0 := by
  have hlist : (sizeSignals c2wManager [c2wSignal]).1 =
      [{ signal := c2wSignal, amount := 115 }] := by
    norm_num [c2wManager, c2wSignal, sizeSignals, canTrade, sizeLoop,
      marketCapStep, sizePosition, sizePositionOdds, flooredAmount]
  have h := sizeSignals_amount_bounds c2wManager [c2wSignal]
    (by norm_num [c2wManager]) { signal := c2wSignal, amount := 115 }
    (by rw [hlist]; exact List.mem_singleton_self _)
  exact ⟨hlist, h.1, h.2.1, h.2.2⟩

/-- Counterexample to claim C2 as frozen over every risk configuration: with a
configured minimum bet amount of 0, `SizeSignals` returns a sized signal
carrying amount 0 (the fractional-Kelly amount 0.05 floors to 0, which passes
the `amount >= MinBetAmount` keep test). -/
theorem sizeSignals_amount_bounds_counterexample :
    (sizeSignals
      { cfg := { kellyFraction := 1/4, maxPositionPct := 1/20,
                 maxMarketExposurePct := 1/10, maxTotalExposure := 1/2,
                 maxDrawdownPct := 1/5, minBetAmount := 0, minEdge := 1/20 },
        portfolio := { balance := 1, investmentValue := 0, totalValue := 1 },
        totalExposure := 0, marketExposure := fun _ => 0, peakBalance := 0 }
      [{ marketID := "mkt", answerID := "", outcome := "YES",
         confidence := 9/10, marketProb := 1/2, edge := 2/5,
         strategy := "t", isLimitOrder := false, limitProb := 0 }]).1 =
    [{ signal := { marketID := "mkt", answerID := "", outcome := "YES",
                   confidence := 9/10, marketProb := 1/2, edge := 2/5,
                   strategy := "t", isLimitOrder := false, limitProb := 0 },
       amount := 0 }] := by
  norm_num [sizeSignals, canTrade, sizeLoop, marketCapStep, sizePosition,
    sizePositionOdds, flooredAmount]

/-- `sizePosition` reads only the configuration, the portfolio and the total
exposure of the manager. -/
theorem sizePosition_congr (m1 m : Manager) (hcfg : m1.cfg = m.cfg)
    (hpf : m1.portfolio = m.portfolio) (hte : m1.totalExposure = m.totalExposure)
    (sig : Signal) : sizePosition m1 sig = sizePosition m sig := by
  unfold sizePosition sizePositionOdds flooredAmount
  rw [hcfg, hpf, hte]

theorem sizeLoop_single (m : Manager) (cyc : String → ℚ) (sig : Signal) :
    sizeLoop m cyc [sig] =
      match marketCapStep m cyc sig with
      | none => []
      | some a => [{ signal := sig, amount := a }] := by
  rw [sizeLoop]
  rcases marketCapStep m cyc sig with _ | a <;> simp [sizeLoop]

/-- Claim C3 (amended: the cap branch only runs for a positive configured
max-market-exposure fraction, and a capped amount whose floor falls below the
minimum bet amount is dropped rather than returned as `floor(C-E)`). With
`C = maxMarketExposurePct · totalValue`, pre-existing exposure `E` on the
signal's market and a computed position demanding more than `C-E`: the signal
is dropped when `C-E ≤ 0`; otherwise it is sized to exactly `floor(C-E)` when
that floor reaches the minimum bet amount, and dropped when it does not. -/
theorem sizeSignals_market_cap_exact (m : Manager) (sig : Signal)
    (hct : (canTrade m).1 = true)
    (hpct : 0 < m.cfg.maxMarketExposurePct)
    (hdemand : m.cfg.maxMarketExposurePct * m.portfolio.totalValue -
        m.marketExposure sig.marketID < sizePosition m sig) :
    (m.cfg.maxMarketExposurePct * m.portfolio.totalValue -
        m.marketExposure sig.marketID ≤ 0 → (sizeSignals m [sig]).1 = []) ∧
    (0 < m.cfg.maxMarketExposurePct * m.portfolio.totalValue -
        m.marketExposure sig.marketID →
      (m.cfg.minBetAmount ≤
          ((⌊m.cfg.maxMarketExposurePct * m.portfolio.totalValue -
              m.marketExposure sig.marketID⌋ : ℤ) : ℚ) →
        (sizeSignals m [sig]).1 =
          [{ signal := sig,
             amount := ((⌊m.cfg.maxMarketExposurePct * m.portfolio.totalValue -
                 m.marketExposure sig.marketID⌋ : ℤ) : ℚ) }]) ∧
      (((⌊m.cfg.maxMarketExposurePct * m.portfolio.totalValue -
           m.marketExposure sig.marketID⌋ : ℤ) : ℚ) < m.cfg.minBetAmount →
        (sizeSignals m [sig]).1 = [])) := by
  rcases hcc : canTrade m with ⟨b, m1⟩
  rw [hcc] at hct
  dsimp only at hct
  subst hct
  have hcfg : m1.cfg = m.cfg := by rw [← canTrade_cfg m, hcc]
  have hpf : m1.portfolio = m.portfolio := by rw [← canTrade_portfolio m, hcc]
  have hme : m1.marketExposure = m.marketExposure := by
    rw [← canTrade_marketExposure m, hcc]
  have hte : m1.totalExposure = m.totalExposure := by
    rw [← canTrade_totalExposure m, hcc]
  have hsp : sizePosition m1 sig = sizePosition m sig :=
    sizePosition_congr m1 m hcfg hpf hte sig
  have hout : ∀ sigs, (sizeSignals m sigs).1 = sizeLoop m1 (fun _ => 0) sigs := by
    intro sigs
    rw [sizeSignals, hcc]
  have hstep : marketCapStep m1 (fun _ => 0) sig =
      (if m.cfg.maxMarketExposurePct * m.portfolio.totalValue -
           m.marketExposure sig.marketID ≤ 0 then none
       else if m.cfg.minBetAmount ≤
           ((⌊m.cfg.maxMarketExposurePct * m.portfolio.totalValue -
               m.marketExposure sig.marketID⌋ : ℤ) : ℚ) then
         some ((⌊m.cfg.maxMarketExposurePct * m.portfolio.totalValue -
             m.marketExposure sig.marketID⌋ : ℤ) : ℚ)
       else none) := by
    unfold marketCapStep
    dsimp only
    rw [hcfg, hpf, hme, hsp, if_pos hpct, add_zero]
    split_ifs <;> rfl
  refine ⟨?_, fun hpos => ⟨?_, ?_⟩⟩
  · intro hrem
    rw [hout, sizeLoop_single, hstep, if_pos hrem]
  · intro hmin
    rw [hout, sizeLoop_single, hstep, if_neg (not_le.mpr hpos), if_pos hmin]
  · intro hlt
    rw [hout, sizeLoop_single, hstep, if_neg (not_le.mpr hpos),
      if_neg (not_le.mpr hlt)]

/-- Witness for `sizeSignals_market_cap_exact`: cap 10, pre-existing exposure
5, demanded position 20 — the signal is sized to exactly `floor(10-5) = 5`. -/
theorem sizeSignals_market_cap_exact_witness :
    (sizeSignals capExManager [capExSignal]).1 =
      [{ signal := capExSignal, amount := 5 }] := by
  have h := (sizeSignals_market_cap_exact capExManager capExSignal
      (by norm_num [canTrade, capExManager])
      (by norm_num [capExManager])
      (by norm_num [capExManager, capExSignal, sizePosition, sizePositionOdds,
        flooredAmount])).2
      (by norm_num [capExManager, capExSignal])
  rw [h.1 (by norm_num [capExManager, capExSignal])]
  norm_num [capExManager, capExSignal]

/-- Counterexample to claim C3 as frozen: with cap `C = 10`, pre-existing
exposure `E = 9.5` and a position demanding 20 > C-E = 0.5 > 0, the claim
says the signal is produced with amount `floor(C-E) = 0`, but `SizeSignals`
drops it (the floored cap falls below the minimum bet amount of 1). -/
theorem sizeSignals_market_cap_exact_counterexample :
    (0:ℚ) <
      capDropManager.cfg.maxMarketExposurePct *
        capDropManager.portfolio.totalValue -
        capDropManager.marketExposure capExSignal.marketID ∧
    capDropManager.cfg.maxMarketExposurePct *
        capDropManager.portfolio.totalValue -
        capDropManager.marketExposure capExSignal.marketID <
      sizePosition capDropManager capExSignal ∧
    (sizeSignals capDropManager [capExSignal]).1 = [] := by
  refine ⟨by norm_num [capDropManager, capExSignal], ?_, ?_⟩
  · norm_num [capDropManager, capExSignal, sizePosition, sizePositionOdds,
      flooredAmount]
  · norm_num [capDropManager, capExSignal, sizeSignals, canTrade, sizeLoop,
      marketCapStep, sizePosition, sizePositionOdds, flooredAmount]

theorem canTrade_fst_formula (m : Manager) (htv : 0 < m.portfolio.totalValue) :
    (canTrade m).1 =
      (if 0 < max m.peakBalance m.portfolio.totalValue ∧
          m.cfg.maxDrawdownPct ≤
            (max m.peakBalance m.portfolio.totalValue - m.portfolio.totalValue) /
              max m.peakBalance m.portfolio.totalValue then false
       else if m.cfg.maxTotalExposure ≤
           m.totalExposure / m.portfolio.totalValue then false
       else true) := by
  unfold canTrade
  dsimp only
  rw [if_neg (not_le.mpr htv)]
  rcases lt_or_le m.peakBalance m.portfolio.totalValue with hpk | hpk
  · rw [if_pos hpk, max_eq_right (le_of_lt hpk)]
    split_ifs <;> rfl
  · rw [if_neg (not_lt.mpr hpk), max_eq_left hpk]
    split_ifs <;> rfl

theorem canTrade_snd_of_nonpos (m : Manager)
    (h : m.portfolio.totalValue ≤ 0) : canTrade m = (false, m) := by
  unfold canTrade
  rw [if_pos h]

/-- An immediate second `CanTrade` call returns the same verdict and leaves
the state fixed: the peak update is idempotent. -/
theorem canTrade_idem (m : Manager) :
    canTrade ((canTrade m).2) = ((canTrade m).1, (canTrade m).2) := by
  rcases le_or_lt m.portfolio.totalValue 0 with h0 | h0
  · rw [canTrade_snd_of_nonpos m h0]
    exact canTrade_snd_of_nonpos m h0
  · have hpf := canTrade_portfolio m
    have hpk : (canTrade m).2.portfolio.totalValue ≤ (canTrade m).2.peakBalance := by
      rw [hpf, canTrade_peak, if_neg (not_le.mpr h0)]
      exact le_max_right _ _
    have h2 : (canTrade ((canTrade m).2)).2 = (canTrade m).2 :=
      canTrade_state_of_peak _ hpk
    have h1 : (canTrade ((canTrade m).2)).1 = (canTrade m).1 := by
      have htv2 : 0 < (canTrade m).2.portfolio.totalValue := by rw [hpf]; exact h0
      rw [canTrade_fst_formula _ htv2, canTrade_fst_formula m h0,
        canTrade_peak, canTrade_cfg, canTrade_portfolio, canTrade_totalExposure,
        if_neg (not_le.mpr h0),
        max_eq_left (le_max_right m.peakBalance m.portfolio.totalValue)]
    calc canTrade ((canTrade m).2)
        = ((canTrade ((canTrade m).2)).1, (canTrade ((canTrade m).2)).2) := rfl
      _ = ((canTrade m).1, (canTrade m).2) := by rw [h1, h2]

theorem sizeSignals_snd (m : Manager) (signals : List Signal) :
    (sizeSignals m signals).2 = (canTrade m).2 := by
  rw [sizeSignals]
  rcases h : canTrade m with ⟨b, m1⟩
  cases b <;> rfl

/-- Claim C10: `SizeSignals` is read-only on the exposure state — it leaves
the total exposure, the per-market exposure map, the portfolio and the
configuration untouched, and at most raises the drawdown peak (through
`CanTrade`); exposure moves only through `RecordTrade`, which adds the amount
to the total and to the traded market's entry and leaves every other market's
entry alone; and an immediate second `SizeSignals` call on the same batch with
no intervening mutation returns identical results and state. -/
theorem sizeSignals_frame_deterministic (m : Manager) (signals : List Signal) :
    ((sizeSignals m signals).2.totalExposure = m.totalExposure ∧
     (sizeSignals m signals).2.marketExposure = m.marketExposure ∧
     (sizeSignals m signals).2.portfolio = m.portfolio ∧
     (sizeSignals m signals).2.cfg = m.cfg) ∧
    ((sizeSignals m signals).2.peakBalance = m.peakBalance ∨
     (sizeSignals m signals).2.peakBalance =
       max m.peakBalance m.portfolio.totalValue) ∧
    (∀ (marketID : String) (amount : ℚ),
       (recordTrade m marketID amount).totalExposure = m.totalExposure + amount ∧
       (recordTrade m marketID amount).marketExposure marketID =
         m.marketExposure marketID + amount ∧
       ∀ id, id ≠ marketID →
         (recordTrade m marketID amount).marketExposure id =
           m.marketExposure id) ∧
    sizeSignals ((sizeSignals m signals).2) signals = sizeSignals m signals := by
  refine ⟨⟨?_, ?_, ?_, ?_⟩, ?_, ?_, ?_⟩
  · rw [sizeSignals_snd, canTrade_totalExposure]
  · rw [sizeSignals_snd, canTrade_marketExposure]
  · rw [sizeSignals_snd, canTrade_portfolio]
  · rw [sizeSignals_snd, canTrade_cfg]
  · rw [sizeSignals_snd, canTrade_peak]
    split_ifs
    · exact Or.inl rfl
    · exact Or.inr rfl
  · intro marketID amount
    refine ⟨rfl, ?_, ?_⟩
    · simp [recordTrade]
    · intro id hid
      simp [recordTrade, hid]
  · rw [sizeSignals_snd]
    have hidem := canTrade_idem m
    rcases h : canTrade m with ⟨b, m1⟩
    rw [h] at hidem
    dsimp only at hidem
    rw [sizeSignals, sizeSignals, hidem, h]

/-- Witness for `sizeSignals_frame_deterministic` at a concrete manager,
batch, market and amount: `RecordTrade` adds 7 to the total exposure. -/
theorem sizeSignals_frame_deterministic_witness :
    (recordTrade
      { cfg := { kellyFraction := 1/4, maxPositionPct := 1/20,
                 maxMarketExposurePct := 1/10, maxTotalExposure := 1/2,
                 maxDrawdownPct := 1/5, minBetAmount := 1, minEdge := 1/20 },
        portfolio := { balance := 2300, investmentValue := 0, totalValue := 2300 },
        totalExposure := 0, marketExposure := fun _ => 0, peakBalance := 0 }
      "market-1" 7).totalExposure = 0 + 7 :=
  ((sizeSignals_frame_deterministic _ []).2.2.1 "market-1" 7).1

theorem activeAnswers_append_resolved (xs : List AnswerData) (a : AnswerData)
    (ha : a.resolution = "CANCEL") :
    activeAnswers (xs ++ [a]) = activeAnswers xs := by
  unfold activeAnswers
  rw [List.filter_append]
  simp [ha]

theorem mem_activeAnswers (answers : List AnswerData) (a : AnswerData)
    (h : a ∈ activeAnswers answers) :
    a ∈ answers ∧ a.resolution = "" ∧
      (1:ℚ)/1000 < a.probability ∧ a.probability < 999/1000 := by
  unfold activeAnswers at h
  rw [List.mem_filter] at h
  refine ⟨h.1, ?_⟩
  have hp := h.2
  split_ifs at hp with hc
  exact hc

/-- Claim C7: Arbitrage emits no signals when the active-answer probability
sum deviates from 1 by strictly less than the threshold; a CANCEL-resolved
answer is excluded from the computation entirely; and when the sum `S` exceeds
1, every emitted signal is a NO limit order for an active answer with edge
`p - p/S ≥ 0.03`, confidence `1 - p/S` and limit target the midpoint of `p`
and `p/S`. -/
theorem arbEvaluateMarket_spec (cfg : ArbitrageConfig) (m : MarketData) :
    ((-cfg.minProbSumDeviation < arbProbSum m - 1 ∧
      arbProbSum m - 1 < cfg.minProbSumDeviation) →
      arbEvaluateMarket cfg m = []) ∧
    (∀ a : AnswerData, a.resolution = "CANCEL" →
      arbEvaluateMarket cfg { m with answers := m.answers ++ [a] } =
        arbEvaluateMarket cfg m) ∧
    (1 < arbProbSum m →
      ∀ sig ∈ arbEvaluateMarket cfg m,
        sig.outcome = "NO" ∧ sig.isLimitOrder = true ∧ (3/100 : ℚ) ≤ sig.edge ∧
        ∃ a ∈ activeAnswers m.answers,
          sig.marketProb = a.probability ∧
          sig.edge = a.probability - a.probability / arbProbSum m ∧
          sig.confidence = 1 - a.probability / arbProbSum m ∧
          sig.limitProb = (a.probability + a.probability / arbProbSum m) / 2) := by
  refine ⟨?_, ?_, ?_⟩
  · intro hdev
    unfold arbProbSum at hdev
    unfold arbEvaluateMarket arbSignalsForActive
    dsimp only
    split_ifs <;> rfl
  · intro a ha
    unfold arbEvaluateMarket
    rw [activeAnswers_append_resolved m.answers a ha]
  · intro hS sig hmem
    have hS' := hS
    unfold arbProbSum at hS'
    unfold arbEvaluateMarket arbSignalsForActive at hmem
    dsimp only at hmem
    split_ifs at hmem with h1 h2 h3
    · simp at hmem
    · simp at hmem
    · -- overpriced branch
      rw [List.mem_filterMap] at hmem
      obtain ⟨a, ha, hfa⟩ := hmem
      split_ifs at hfa with hedge
      rw [Option.some_inj] at hfa
      subst hfa
      exact ⟨rfl, rfl, not_lt.mp hedge, a, ha, rfl, rfl, rfl, rfl⟩
    · -- underpriced branch is impossible for S > 1: every edge is negative
      exfalso
      rw [List.mem_filterMap] at hmem
      obtain ⟨a, ha, hfa⟩ := hmem
      split_ifs at hfa with hedge
      have hp : (0:ℚ) < a.probability :=
        lt_trans (by norm_num) (mem_activeAnswers m.answers a ha).2.2.1
      have hlt : a.probability /
          ((activeAnswers m.answers).map fun x => x.probability).sum <
          a.probability := div_lt_self hp hS'
      rw [not_lt] at hedge
      linarith

/-- Witness for `arbEvaluateMarket_spec`: the active-answer probabilities of
`arbWitnessMarket` sum to 1.30 > 1, and every signal the market produces under
the test configuration is a NO signal with edge at least 0.03. -/
theorem arbEvaluateMarket_spec_witness :
    (1:ℚ) < arbProbSum arbWitnessMarket ∧
    ∀ sig ∈ arbEvaluateMarket arbWitnessCfg arbWitnessMarket,
      sig.outcome = "NO" ∧ (3/100 : ℚ) ≤ sig.edge := by
  have hS : (1:ℚ) < arbProbSum arbWitnessMarket := by
    norm_num [arbProbSum, activeAnswers, arbWitnessMarket]
  refine ⟨hS, fun sig h => ?_⟩
  have hh := (arbEvaluateMarket_spec arbWitnessCfg arbWitnessMarket).2.2 hS sig h
  exact ⟨hh.1, hh.2.2.1⟩

/-- Claim C8: the spread is the liquidity-tiered step function (2% above
liquidity 2000, 3% above 1000, otherwise the configured base spread), and an
eligible binary market produces exactly the two limit-order signals — YES at
(probability - spread/2) with confidence = probability, NO at
(probability + spread/2) with confidence = 1 - probability, both with
edge = spread/2. -/
theorem mmEvaluate_spec (cfg : MarketMakingConfig) (now : ℚ) (m : MarketData)
    (h : mmIsEligible cfg now m = true) :
    mmCalculateSpread cfg m =
      (if 2000 < m.totalLiquidity then 2/100
       else if 1000 < m.totalLiquidity then 3/100 else cfg.baseSpread) ∧
    mmEvaluate cfg now [m] =
      [{ marketID := m.id, answerID := "", outcome := "YES",
         confidence := m.probability, marketProb := m.probability,
         edge := mmCalculateSpread cfg m / 2, strategy := "marketmaking",
         isLimitOrder := true,
         limitProb := m.probability - mmCalculateSpread cfg m / 2 },
       { marketID := m.id, answerID := "", outcome := "NO",
         confidence := 1 - m.probability, marketProb := m.probability,
         edge := mmCalculateSpread cfg m / 2, strategy := "marketmaking",
         isLimitOrder := true,
         limitProb := m.probability + mmCalculateSpread cfg m / 2 }] := by
  refine ⟨rfl, ?_⟩
  unfold mmEvaluate
  simp [h, mmGenerateSignals]

/-- Witness for `mmEvaluate_spec`: a market with liquidity 2500 and
probability 0.50 is eligible and yields exactly two signals, YES with limit
target 0.49 and NO with limit target 0.51. -/
theorem mmEvaluate_spec_witness :
    mmIsEligible mmWitnessCfg 0 mmWitnessMarket = true ∧
    (mmEvaluate mmWitnessCfg 0 [mmWitnessMarket]).map
        (fun s => (s.outcome, s.limitProb)) =
      [("YES", (49/100 : ℚ)), ("NO", (51/100 : ℚ))] := by
  have hel : mmIsEligible mmWitnessCfg 0 mmWitnessMarket = true := by
    norm_num [mmIsEligible, mmWitnessCfg, mmWitnessMarket, dayMs]
  have h := (mmEvaluate_spec mmWitnessCfg 0 mmWitnessMarket hel).2
  refine ⟨hel, ?_⟩
  rw [h]
  norm_num [mmCalculateSpread, mmWitnessCfg, mmWitnessMarket]

theorem arbEvaluateMarket_edge (cfg : ArbitrageConfig) (m : MarketData)
    (sig : Signal) (h : sig ∈ arbEvaluateMarket cfg m) : (3/100 : ℚ) ≤ sig.edge := by
  unfold arbEvaluateMarket arbSignalsForActive at h
  dsimp only at h
  split_ifs at h with h1 h2 h3
  · simp at h
  · simp at h
  · rw [List.mem_filterMap] at h
    obtain ⟨a, ha, hfa⟩ := h
    split_ifs at hfa with hedge
    rw [Option.some_inj] at hfa
    subst hfa
    exact not_lt.mp hedge
  · rw [List.mem_filterMap] at h
    obtain ⟨a, ha, hfa⟩ := h
    split_ifs at hfa with hedge
    rw [Option.some_inj] at hfa
    subst hfa
    exact not_lt.mp hedge

theorem arbEvalLoop_mem (cfg : ArbitrageConfig) (now : ℚ) (sig : Signal) :
    ∀ (l : List MarketData) (evaluated : ℤ),
      sig ∈ arbEvalLoop cfg now evaluated l →
      ∃ m, sig ∈ arbEvaluateMarket cfg m := by
  intro l
  induction l with
  | nil => intro ev h; simp [arbEvalLoop] at h
  | cons m rest ih =>
    intro ev h
    rw [arbEvalLoop] at h
    split_ifs at h <;>
      first
        | exact ih _ h
        | (rcases List.mem_append.mp h with h' | h'
           exacts [⟨m, h'⟩, ih _ h'])
        | simp at h

theorem tdEvaluateMarket_some_edge (cfg : TimeDecayConfig) (now : ℚ)
    (m : MarketData) (sig : Signal)
    (h : tdEvaluateMarket cfg now m = some sig) : cfg.minEdge < sig.edge := by
  unfold tdEvaluateMarket at h
  dsimp only at h
  split_ifs at h with h1 h2 h3 h4 h5
  · rw [Option.some_inj] at h
    subst h
    exact not_le.mp h4
  · rw [Option.some_inj] at h
    subst h
    exact not_le.mp h5

theorem tdEvaluate_mem_edge (cfg : TimeDecayConfig) (matcher : String → Bool)
    (now : ℚ) (markets : List MarketData) (sig : Signal)
    (h : sig ∈ tdEvaluate cfg matcher now markets) : cfg.minEdge < sig.edge := by
  unfold tdEvaluate at h
  rw [List.mem_flatMap] at h
  obtain ⟨m, hm, hsig⟩ := h
  split_ifs at hsig <;> try simp at hsig
  exact tdEvaluateMarket_some_edge cfg now m sig hsig

theorem mpEvaluateExtreme_edge (cfg : MispricingConfig) (now : ℚ)
    (mkt : MarketData) (sig : Signal) (h : sig ∈ mpEvaluateExtreme cfg now mkt) :
    0 < sig.edge := by
  unfold mpEvaluateExtreme at h
  dsimp only at h
  split_ifs at h with h1 h2 h3 h4 h5 h6 h7 <;> try simp at h
  · subst h
    exact not_le.mp h6
  · subst h
    exact not_le.mp h7

theorem mmGenerateSignals_edge (m : MarketData) (spread : ℚ) (sig : Signal)
    (h : sig ∈ mmGenerateSignals m spread) : sig.edge = spread / 2 := by
  unfold mmGenerateSignals at h
  simp only [List.mem_cons, List.not_mem_nil, or_false] at h
  rcases h with h | h <;> subst h <;> rfl

theorem mmCalculateSpread_pos (cfg : MarketMakingConfig) (m : MarketData)
    (hbs : 0 < cfg.baseSpread) : 0 < mmCalculateSpread cfg m := by
  unfold mmCalculateSpread
  split_ifs <;> first | exact hbs | norm_num

/-- Claim C9 (amended: for a strictly positive configured MarketMaking base
spread and a nonnegative configured TimeDecay minimum edge; with base spread 0
MarketMaking emits edge-0 signals, and with a negative TimeDecay minimum edge
that generator can emit non-positive edges). Every signal emitted by any of
the four generators carries a strictly positive edge. -/
theorem generators_positive_edge (acfg : ArbitrageConfig)
    (tcfg : TimeDecayConfig) (mcfg : MispricingConfig)
    (mmcfg : MarketMakingConfig) (matcher : String → Bool) (now : ℚ)
    (markets : List MarketData) (sig : Signal)
    (htd : 0 ≤ tcfg.minEdge) (hbs : 0 < mmcfg.baseSpread)
    (hmem : sig ∈ arbEvaluate acfg now markets ∨
            sig ∈ tdEvaluate tcfg matcher now markets ∨
            sig ∈ mpEvaluate mcfg now markets ∨
            sig ∈ mmEvaluate mmcfg now markets) :
    0 < sig.edge := by
  rcases hmem with h | h | h | h
  · unfold arbEvaluate at h
    obtain ⟨mx, hx⟩ := arbEvalLoop_mem acfg now sig markets 0 h
    exact lt_of_lt_of_le (by norm_num) (arbEvaluateMarket_edge acfg mx sig hx)
  · exact lt_of_le_of_lt htd (tdEvaluate_mem_edge tcfg matcher now markets sig h)
  · unfold mpEvaluate at h
    rw [List.mem_flatMap] at h
    obtain ⟨mk, hm, hs⟩ := h
    split_ifs at hs <;> try simp at hs
    exact mpEvaluateExtreme_edge mcfg now mk sig hs
  · unfold mmEvaluate at h
    rw [List.mem_flatMap] at h
    obtain ⟨mk, hm, hs⟩ := h
    split_ifs at hs with hel
    · rw [mmGenerateSignals_edge mk (mmCalculateSpread mmcfg mk) sig hs]
      exact div_pos (mmCalculateSpread_pos mmcfg mk hbs) (by norm_num)
    · simp at hs

/-- Witness for `generators_positive_edge`: the concrete MarketMaking YES
signal emitted for `mmWitnessMarket` under a positive base spread carries a
positive edge. -/
theorem generators_positive_edge_witness :
    c9wSignal ∈ mmEvaluate mmWitnessCfg 0 [mmWitnessMarket] ∧
    0 < c9wSignal.edge := by
  have hmem : c9wSignal ∈ mmEvaluate mmWitnessCfg 0 [mmWitnessMarket] := by
    norm_num [mmEvaluate, mmIsEligible, mmGenerateSignals, mmCalculateSpread,
      mmWitnessCfg, mmWitnessMarket, c9wSignal, dayMs]
  refine ⟨hmem, ?_⟩
  exact generators_positive_edge
    { enabled := true, minLiquidity := 50, minProbSumDeviation := 1/10,
      maxMarketsPerCycle := 20, maxCloseDays := 0 }
    { enabled := true, minTimeElapsedFraction := 1/2, minEdge := 8/100,
      minVolume := 50 }
    { enabled := true, extremeThresholdHigh := 93/100,
      extremeThresholdLow := 7/100, minMarketAgeDays := 7, minVolume := 100 }
    mmWitnessCfg (fun _ => false) 0 [mmWitnessMarket] c9wSignal
    (by norm_num) (by norm_num [mmWitnessCfg])
    (Or.inr (Or.inr (Or.inr hmem)))

/-- Counterexample to claim C9 as frozen over every generator configuration:
with a MarketMaking base spread of 0, an eligible market in the base-spread
tier yields signals whose edge is 0, not strictly positive. -/
theorem generators_positive_edge_counterexample :
    ∃ sig ∈ mmEvaluate mmZeroCfg 0 [mmZeroMarket], ¬ (0 < sig.edge) := by
  refine ⟨{ marketID := "z", answerID := "", outcome := "YES",
            confidence := 1/2, marketProb := 1/2, edge := 0,
            strategy := "marketmaking", isLimitOrder := true,
            limitProb := 1/2 }, ?_, by norm_num⟩
  norm_num [mmEvaluate, mmIsEligible, mmGenerateSignals, mmCalculateSpread,
    mmZeroCfg, mmZeroMarket, dayMs]

/-- Any step of the executor preserves an already-blacklisted counter: a
skipped key is left untouched, and a step on a different signal only writes
that signal's own key. -/
theorem executeSingle_preserves_blacklist (s : ExecState) (sig : Signal)
    (o : PlacementOutcome) (k : String) (h : 3 ≤ s.failedBets k) :
    3 ≤ (executeSingle s sig o).state.failedBets k := by
  unfold executeSingle
  dsimp only
  split_ifs with h1
  · exact h
  · have hk : k ≠ betKey sig := by
      intro he
      rw [he] at h
      exact h1 h
    cases o with
    | success => simpa [hk] using h
    | failure msg =>
      dsimp only
      split_ifs with h2 <;> simpa [hk] using h

/-- Once a key's counter is at 3 or more, no later event in any run ever
attempts a placement for that key. -/
theorem runExec_blacklisted (k : String) :
    ∀ (evs : List (Signal × PlacementOutcome)) (s : ExecState),
      3 ≤ s.failedBets k →
      ∀ pr ∈ runExec s evs, betKey pr.1.1 = k → pr.2.attempted = false := by
  intro evs
  induction evs with
  | nil => intro s hs pr hpr; simp [runExec] at hpr
  | cons ev rest ih =>
    intro s hs pr hpr hk
    rw [runExec] at hpr
    rcases List.mem_cons.mp hpr with hpr | hpr
    · subst hpr
      dsimp only at hk ⊢
      have h3 : 3 ≤ s.failedBets (betKey ev.1) := by rw [hk]; exact hs
      unfold executeSingle
      dsimp only
      rw [if_pos h3]
    · exact ih _ (executeSingle_preserves_blacklist s ev.1 ev.2 k hs) pr hpr hk

/-- Claim C6 (amended: the executor's key is `marketID:answerID` — the outcome
is not part of it — and the permanent classification is a message containing
"resolved", "status 403" (forbidden) or "status 404" (not found); a message
merely indicating a closed market is treated as transient). For every key:
(a) at 3 or more consecutive failures the key is skipped without attempting
placement and the state is unchanged; (b) a permanent failure sets the counter
to 100, after which the key is never attempted again in any run; (c) a
transient failure increments the per-key counter; (d) a success resets it. -/
theorem executor_failure_policy (s : ExecState) (sig : Signal) :
    (∀ o, 3 ≤ s.failedBets (betKey sig) →
       (executeSingle s sig o).attempted = false ∧
       (executeSingle s sig o).state = s) ∧
    (∀ msg, s.failedBets (betKey sig) < 3 → isPermanentMsg msg = true →
       (executeSingle s sig (.failure msg)).state.failedBets (betKey sig) = 100 ∧
       ∀ evs, ∀ pr ∈ runExec (executeSingle s sig (.failure msg)).state evs,
         betKey pr.1.1 = betKey sig → pr.2.attempted = false) ∧
    (∀ msg, s.failedBets (betKey sig) < 3 → isPermanentMsg msg = false →
       (executeSingle s sig (.failure msg)).state.failedBets (betKey sig) =
         s.failedBets (betKey sig) + 1) ∧
    (s.failedBets (betKey sig) < 3 →
       (executeSingle s sig .success).state.failedBets (betKey sig) = 0) := by
  refine ⟨?_, ?_, ?_, ?_⟩
  · intro o h3
    unfold executeSingle
    dsimp only
    rw [if_pos h3]
    exact ⟨rfl, rfl⟩
  · intro msg hlt hperm
    have h100 : (executeSingle s sig
        (.failure msg)).state.failedBets (betKey sig) = 100 := by
      unfold executeSingle
      dsimp only
      rw [if_neg (not_le.mpr hlt), if_pos hperm]
      simp
    refine ⟨h100, ?_⟩
    intro evs pr hpr hk
    exact runExec_blacklisted (betKey sig) evs _ (by rw [h100]; norm_num) pr hpr hk
  · intro msg hlt hperm
    unfold executeSingle
    dsimp only
    rw [if_neg (not_le.mpr hlt), if_neg (by rw [hperm]; exact Bool.false_ne_true)]
    simp
  · intro hlt
    unfold executeSingle
    dsimp only
    rw [if_neg (not_le.mpr hlt)]
    simp

/-- Witness for `executor_failure_policy`: a fresh key failing with a message
containing "resolved" gets its counter set to 100 (the permanent blacklist). -/
theorem executor_failure_policy_witness :
    (executeSingle execFreshState execSig
        (.failure "answer already resolved")).state.failedBets
      (betKey execSig) = 100 :=
  ((executor_failure_policy execFreshState execSig).2.1 "answer already resolved"
      (by decide) (by decide)).1

/-- Counterexample to claim C6 as frozen: a failure whose message indicates a
closed market ("market is closed") is NOT blacklisted — the executor treats it
as transient (counter 1) and attempts the key again on the very next call —
and the executor key is `marketID:answerID`, with no outcome component. -/
theorem executor_failure_policy_counterexample :
    isPermanentMsg "market is closed" = false ∧
    (executeSingle execFreshState execSig
        (.failure "market is closed")).state.failedBets (betKey execSig) = 1 ∧
    (executeSingle
        (executeSingle execFreshState execSig
            (.failure "market is closed")).state execSig
        .success).attempted = true ∧
    betKey execSig = "m1:a1" := by
  refine ⟨by decide, by decide, by decide, by decide⟩

theorem refresh_marketExposure (m : Manager) :
    (refresh m).marketExposure = m.marketExposure := by
  unfold refresh
  dsimp only
  split_ifs <;> rfl

/-- After `Refresh`, the stored peak is at least the total value, so the peak
update inside a subsequent `CanTrade` is a no-op. -/
theorem refresh_peak_ge (m : Manager) :
    (refresh m).portfolio.totalValue ≤ (refresh m).peakBalance := by
  unfold refresh
  dsimp only
  split_ifs with h
  · exact le_refl _
  · exact le_of_not_lt h

theorem recordSuccessesAux_all_true (succ : ℕ → Bool) (hs : ∀ i, succ i = true) :
    ∀ (l : List SizedSignal) (i : ℕ) (m : Manager),
      recordSuccessesAux succ i m l =
        l.foldl (fun mm z => recordTrade mm z.signal.marketID z.amount) m := by
  intro l
  induction l with
  | nil => intro i m; rfl
  | cons z rest ih =>
    intro i m
    rw [recordSuccessesAux, hs i, List.foldl_cons]
    simp only [if_true]
    exact ih (i + 1) _

/-- A single live trading cycle whose external inputs agree with the replay
state computes exactly what the replay cycle computes: the same sized signals
and the same resulting manager. -/
theorem liveCycle_eq_replayCycle (strats : List Strat) (env : LiveEnv)
    (m : Manager) (mkts : List MarketData)
    (hp : env.portfolio = m.portfolio)
    (he : env.dbExposure = m.marketExposure)
    (hs : ∀ i, env.succ i = true) :
    liveCycle strats env m mkts = replayCycle strats m mkts := by
  unfold liveCycle replayCycle
  dsimp only
  have h0 : { m with portfolio := env.portfolio } = m := by rw [hp]
  rw [h0]
  have h1 : setMarketExposure (refresh m) env.dbExposure = refresh m := by
    unfold setMarketExposure
    rw [he, ← refresh_marketExposure m]
  rw [h1]
  by_cases hempty : generateAll strats mkts = []
  · rw [hempty, if_pos rfl]
    have hct := canTrade_state_of_peak (refresh m) (refresh_peak_ge m)
    have hr : sizeSignals (refresh m) [] = ([], refresh m) := by
      rw [sizeSignals]
      rcases hcc : canTrade (refresh m) with ⟨b, m1⟩
      have hm1 : m1 = refresh m := by rw [← hct, hcc]
      cases b <;> simp [sizeLoop, hm1]
    rw [hr]
    rfl
  · rw [if_neg hempty]
    unfold recordSuccesses
    rw [recordSuccessesAux_all_true env.succ hs]

/-- Claim C1: over the same sequence of snapshot sets and the same Risk Engine
configuration and state, with the live loop's external inputs consistent with
the replay simulation (the refreshed portfolio equals the replay portfolio,
the ledger-loaded per-market exposure equals the exposure accumulated from the
recorded trades, and every placement succeeds), the live Orchestration Loop's
generate→SizeSignals cycles produce exactly the SizedSignal sequence of the
Replay Driver's generate→SizeSignals→RecordTrade cycles, and the risk states
evolve identically. -/
theorem replay_live_equiv (strats : List Strat) :
    ∀ (mktsSeq : List (List MarketData)) (envs : List LiveEnv) (m : Manager),
      ConsistentEnvs strats m envs mktsSeq →
      liveRun strats m envs mktsSeq = replayRun strats m mktsSeq := by
  intro mktsSeq
  induction mktsSeq with
  | nil =>
    intro envs m h
    cases envs with
    | nil => rfl
    | cons e es => exact h.elim
  | cons mkts rest ih =>
    intro envs m h
    cases envs with
    | nil => exact h.elim
    | cons env envRest =>
      obtain ⟨hp, he, hs, hrest⟩ := h
      rw [liveRun, replayRun]
      rw [liveCycle_eq_replayCycle strats env m mkts hp he hs,
        ih envRest _ hrest]

/-- Witness for `replay_live_equiv`: one cycle over one snapshot set with
consistent external inputs — the live loop and the replay driver emit the
same (nonempty) sized-signal sequence. -/
theorem replay_live_equiv_witness :
    liveRun [c1Strat] c1Manager [c1Env] [[]] =
      replayRun [c1Strat] c1Manager [[]] ∧
    ((replayRun [c1Strat] c1Manager [[]]).1.map fun z => z.amount) = [115] := by
  constructor
  · exact replay_live_equiv [c1Strat] [[]] [c1Env] c1Manager
      ⟨rfl, rfl, fun _ => rfl, trivial⟩
  · norm_num [replayRun, replayCycle, refresh, generateAll, c1Strat, c1Manager,
      sizeSignals, canTrade, sizeLoop, marketCapStep, sizePosition,
      sizePositionOdds, flooredAmount, recordTrade]

end Hyper


